import Mathlib

/-!
# Verification of the velura on-demand video acquisition-and-cache layer

Shallow embedding of the cache/acquisition core of the repository:

* `src/backend/services/storageManager.js` (catalog + content store + eviction),
* `src/backend/services/downloadService.js` (lock table + download coordinator),
* `src/unnamed/part_001` (the route file containing `streamVideoFile`).

The MongoDB-backed `TrailerStorage` collection is modelled as a list of
`CatalogEntry` records; the filesystem is modelled as a list of
`(path, content-bytes)` pairs.  Stateful JS code becomes explicit state
passing; the concurrent deduplication logic of `downloadAndStore` is
additionally modelled as an interleaving state machine (one atomic step per
synchronous block between `await` points of the Node.js event loop).

Numbers are `Nat`: byte counts and timestamps are non-negative integers in
the source's operating range, and no arithmetic here overflows or wraps.
-/

namespace Velura

/-! ## Filesystem model

A flat file system: a list of `(path, content)` pairs, at most one entry per
path (maintained by `fsWrite`/`fsUnlink`).  Mirrors the `fs` module calls used
by the source (`existsSync`, `statSync().size`, `copyFileSync`, `unlinkSync`,
`createReadStream`). -/

/-- The filesystem: existing files as `(path, content bytes)` pairs. -/
abbrev Fs := List (String × List Nat)

/-- `fs.existsSync(p)`. -/
def fsExists (fs : Fs) (p : String) : Bool :=
  fs.any (fun f => f.1 = p)

/-- Read the content of the file at `p` (`none` when absent). -/
def fsRead (fs : Fs) (p : String) : Option (List Nat) :=
  (fs.find? (fun f => f.1 = p)).map (·.2)

/-- `fs.unlinkSync(p)`: remove the file at `p`. -/
def fsUnlink (fs : Fs) (p : String) : Fs :=
  fs.filter (fun f => f.1 ≠ p)

/-- `fs.copyFileSync(_, p)` target effect: (over)write the file at `p`. -/
def fsWrite (fs : Fs) (p : String) (content : List Nat) : Fs :=
  (p, content) :: fsUnlink fs p

/-- `fs.statSync(p).size`: byte size of the file at `p` (0 when absent,
which the source never relies on). -/
def fsSize (fs : Fs) (p : String) : Nat :=
  ((fsRead fs p).getD []).length

/-- `fs.existsSync` applied to a nullable path (`existsSync(null)` is `false`). -/
def optExists (fs : Fs) (p : Option String) : Bool :=
  match p with
  | none => false
  | some q => fsExists fs q

/-! ## Catalog model

One `TrailerStorage` document (`src/backend/models/TrailerStorage.js` is not
part of the provided sources; its fields follow the uses in
`storageManager.js`/`downloadService.js` and the spec's §3 data model —
descriptive fields such as `tmdbId`, `mediaType`, `videoQuality`, `format`,
`extension` and the automatic `createdAt`/`updatedAt` timestamps are not
relevant to any verified property and are omitted).  `contentId` is the
catalog's unique key (spec §3); document updates (`record.save()`) are
modelled as replacement of the entries with the same `contentId`. -/

structure CatalogEntry where
  contentId : String
  title : String
  localPath : Option String
  /-- Stored file size.  The source stores `stats.size / (1024*1024)` (a JS
  float); this model keeps the raw byte count, which carries the same
  information and avoids non-integral arithmetic.  No claim inspects the
  numeric value. -/
  fileSizeMB : Nat
  priority : Nat
  accessCount : Nat
  lastAccessed : Nat
  isActive : Bool
  deriving Repr, DecidableEq

/-- The `TrailerStorage` collection. -/
abbrev Catalog := List CatalogEntry

/-- `TrailerStorage.findOne({ contentId })`: first document with this id. -/
def findOne (c : Catalog) (cid : String) : Option CatalogEntry :=
  c.find? (fun e => e.contentId = cid)

/-- `TrailerStorage.findOne({ contentId, isActive: true })`. -/
def findOneActive (c : Catalog) (cid : String) : Option CatalogEntry :=
  c.find? (fun e => e.contentId = cid && e.isActive)

/-- `doc.save()`: persist a document, replacing the stored entries carrying
its `contentId`. -/
def saveEntry (c : Catalog) (e : CatalogEntry) : Catalog :=
  c.map (fun x => if x.contentId = e.contentId then e else x)

/-- Combined persistent state of the storage manager: the `TrailerStorage`
collection plus the filesystem. -/
structure StoreState where
  catalog : Catalog
  fs : Fs
  deriving Repr, DecidableEq

/-! ## Stream server (`streamVideoFile`, `src/unnamed/part_001` lines 221–272)

The served file is passed as `Option (List Nat)` (its content, `none` when
`fs.existsSync(filePath)` is false).  The byte-range header `bytes=<start>-<end>`
is passed as its parsed numeric form `(start, Option end)` — the source parses
it with `range.replace(/bytes=/, "").split("-")` and `parseInt` (lines
233–235), and within the well-formed headers quantified over by the claims the
parsed values are exactly these numbers.  Constant headers (`Content-Type`,
`Accept-Ranges`, `Cache-Control`) are not modelled. -/

/-- Response of `streamVideoFile`: a successful (2xx) response with status,
optional `Content-Range` header, `Content-Length`, and body bytes — or the
JSON error response produced by the `catch` block. -/
inductive StreamResult where
  | ok (status : Nat) (contentRange : Option String) (contentLength : Nat) (body : List Nat)
  | error (status : Nat) (message : String)
  deriving Repr, DecidableEq

/-- HTTP status of a `StreamResult`. -/
def StreamResult.status : StreamResult → Nat
  | .ok s _ _ _ => s
  | .error s _ => s

/-- `parts[1] ? parseInt(parts[1], 10) : fileSize - 1` (line 235): the range
end defaults to `fileSize - 1` when absent. -/
def jsRangeEnd (endo : Option Nat) (fileSize : Nat) : Nat :=
  match endo with
  | some e => e
  | none => fileSize - 1

/-- `streamVideoFile(filePath, req, res)`.  A missing file throws
`Error('Video file not found')`, which the function's own `catch` turns into
a 500 JSON response (lines 223–225, 265–271).  A range request is answered
with 206, a `Content-Range` header and the bytes `start..end` of the file
(`fs.createReadStream(filePath, { start, end })`, lines 231–251); otherwise
the whole file is sent with 200 (lines 253–263). -/
def streamVideoFile (file : Option (List Nat)) (range : Option (Nat × Option Nat)) :
    StreamResult :=
  match file with
  | none => .error 500 "Failed to stream video"
  | some content =>
    let fileSize := content.length
    match range with
    | some (start, endo) =>
      let rangeEnd := jsRangeEnd endo fileSize
      let chunksize := rangeEnd - start + 1
      .ok 206
        (some ("bytes " ++ toString start ++ "-" ++ toString rangeEnd ++ "/" ++ toString fileSize))
        chunksize
        ((content.drop start).take chunksize)
    | none => .ok 200 none fileSize content

/-! ## Storage manager (`src/backend/services/storageManager.js`)

`trailerPath` (the storage root chosen by `init()`) and the capacity limits
`MAX_STORAGE_GB` / `MAX_VIDEOS` (env-configured, defaults 1000 / 500) are
passed as parameters. -/

/-- `getVideoPath(contentId)` (lines 73–76): `path.join(trailerPath, contentId + ".mp4")`. -/
def getVideoPath (trailerPath contentId : String) : String :=
  trailerPath ++ "/" ++ contentId ++ ".mp4"

/-- `getVideoInfo(contentId)` (lines 184–216).  Looks up the active document;
self-heals (marks inactive, leaving `localPath` as stored) when the file is
missing; otherwise bumps the access stats and returns the path.
`bumpSaveFails` injects a failure of the `record.save()` persisting the bump
(line 205): the surrounding `try`/`catch` swallows it and returns `null`,
leaving the persisted state unchanged.  (A failure of the mark-inactive save
on line 198 is not injected; no claim concerns it.)  Result: the returned
path (`null` ⇒ `none`) and the resulting persistent state. -/
def getVideoInfo (st : StoreState) (cid : String) (now : Nat) (bumpSaveFails : Bool) :
    Option String × StoreState :=
  match findOneActive st.catalog cid with
  | none => (none, st)
  | some record =>
    if optExists st.fs record.localPath = false then
      (none, { st with catalog := saveEntry st.catalog { record with isActive := false } })
    else
      if bumpSaveFails then
        (none, st)
      else
        let bumped := { record with
          accessCount := record.accessCount + 1, lastAccessed := now }
        (record.localPath, { st with catalog := saveEntry st.catalog bumped })

/-- The sort order of the `cleanup` query (lines 279–282):
`sort({ lastAccessed: 1, accessCount: 1 })`. -/
def evictLE (a b : CatalogEntry) : Prop :=
  a.lastAccessed < b.lastAccessed ∨
    (a.lastAccessed = b.lastAccessed ∧ a.accessCount ≤ b.accessCount)

instance : DecidableRel evictLE := fun a b => by
  unfold evictLE; infer_instance

/-- The candidate query of `cleanup` (lines 275–283):
`find({ isActive: true, priority: 1 }).sort({ lastAccessed: 1, accessCount: 1 }).limit(10)`.
The sort is modelled as a stable sort on the document list (ties keep their
stored order; MongoDB does not sort ties by `contentId`). -/
def cleanupCandidates (c : Catalog) : List CatalogEntry :=
  ((c.filter (fun e => e.isActive && e.priority == 1)).insertionSort evictLE).take 10

/-- Modelled from the spec: `listEvictionCandidates(limit)` — the spec-side
contract (§4.1) that the `cleanup` query is claimed to implement: "active
entries ordered by (priority ascending, lastAccessed ascending, accessCount
ascending)", ties "stable by contentId".  Stated here only to be compared
with `cleanupCandidates`. -/
def specEvictLE (a b : CatalogEntry) : Prop :=
  a.priority < b.priority ∨
    (a.priority = b.priority ∧ (a.lastAccessed < b.lastAccessed ∨
      (a.lastAccessed = b.lastAccessed ∧ (a.accessCount < b.accessCount ∨
        (a.accessCount = b.accessCount ∧ a.contentId ≤ b.contentId)))))

instance : DecidableRel specEvictLE := fun a b => by
  unfold specEvictLE; infer_instance

/-- Modelled from the spec: the candidate list `listEvictionCandidates(limit)`
would return (spec §4.1).  See `specEvictLE`. -/
def listEvictionCandidatesSpec (c : Catalog) (limit : Nat) : List CatalogEntry :=
  ((c.filter (fun e => e.isActive)).insertionSort specEvictLE).take limit

/-- Loop body of `cleanup` (lines 287–305): delete the candidate's file when
present, then persist the document with `isActive = false`, `localPath = null`. -/
def cleanupDeleteOne (st : StoreState) (video : CatalogEntry) : StoreState :=
  let fs' := match video.localPath with
    | some p => if fsExists st.fs p then fsUnlink st.fs p else st.fs
    | none => st.fs
  { catalog := saveEntry st.catalog { video with isActive := false, localPath := none },
    fs := fs' }

/-- `cleanup()` (lines 269–314): fetch the candidates, then delete each in
order.  Returns `deletedCount` and the resulting state.  (The per-candidate
`try`/`catch` is not failure-injected: deletions succeed in this model.) -/
def cleanup (st : StoreState) : Nat × StoreState :=
  let candidates := cleanupCandidates st.catalog
  (candidates.length, candidates.foldl cleanupDeleteOne st)

/-- The `.mp4` files of the store directory
(`readdirSync(trailerPath).filter(f => f.endsWith('.mp4'))`, lines 239–240).
Directory membership of a flat path is modelled as having `trailerPath ++ "/"`
as a prefix (the store writes only such paths; nested directories are not
modelled). -/
def storeFiles (trailerPath : String) (fs : Fs) : Fs :=
  fs.filter (fun f => f.1.startsWith (trailerPath ++ "/") && f.1.endsWith ".mp4")

/-- `getStorageStats()` (lines 235–267): `(fileCount, totalSize)` in bytes. -/
def getStorageStats (trailerPath : String) (fs : Fs) : Nat × Nat :=
  let files := storeFiles trailerPath fs
  (files.length, (files.map (fun f => f.2.length)).sum)

/-- `checkAndCleanup()` (lines 218–233): run `cleanup` when usage crosses 90%
of either limit.  `usedGB > 0.9 * MAX_STORAGE_GB` over exact byte counts is
`10 * totalSize > 9 * maxGB * 2^30`, and `fileCount > 0.9 * MAX_VIDEOS` is
`10 * fileCount > 9 * maxVideos`. -/
def checkAndCleanup (trailerPath : String) (maxGB maxVideos : Nat) (st : StoreState) :
    StoreState :=
  let stats := getStorageStats trailerPath st.fs
  if 10 * stats.2 > 9 * (maxGB * 1024 * 1024 * 1024) || 10 * stats.1 > 9 * maxVideos then
    (cleanup st).2
  else st

/-- Result of `saveVideo`: the `{ success, path, sizeMB }` object (size kept
in bytes, see `CatalogEntry.fileSizeMB`) or the thrown error. -/
inductive SaveResult where
  | ok (path : String) (sizeBytes : Nat)
  | err (msg : String)
  deriving Repr, DecidableEq

/-- `saveVideo(contentId, tempFilePath, metadata)` (lines 85–182).

Order of effects, as in the source: verify the temp file exists (line 95,
throwing with `finalPath` still `null`, so the `catch` deletes nothing);
`copyFileSync(tempFilePath, finalPath)` (line 105); then the catalog
transaction (lines 112–149): update the existing document for `contentId` or
create a new one, and commit.  `catalogWriteFails` injects a failure of that
transaction: the `catch` (lines 162–176) aborts it — so no catalog change
persists — deletes `finalPath` if it exists, and rethrows.  On success
`checkAndCleanup()` runs (line 154) and `{ path: finalPath }` is returned.

New-document defaults (`accessCount = 0`, `lastAccessed = now`) are modelled
from the spec's §3 data model, the schema file `TrailerStorage.js` being
absent from the provided sources. -/
def saveVideo (trailerPath : String) (maxGB maxVideos : Nat) (st : StoreState)
    (contentId tempFilePath : String) (metaTitle : String) (metaPriority : Option Nat)
    (now : Nat) (catalogWriteFails : Bool) : SaveResult × StoreState :=
  if fsExists st.fs tempFilePath = false then
    (.err ("Temp file not found: " ++ tempFilePath), st)
  else
    let finalPath := getVideoPath trailerPath contentId
    let content := (fsRead st.fs tempFilePath).getD []
    let fs1 := fsWrite st.fs finalPath content
    let size := fsSize fs1 finalPath
    if catalogWriteFails then
      let fs2 := if fsExists fs1 finalPath then fsUnlink fs1 finalPath else fs1
      (.err "catalog write failed", { st with fs := fs2 })
    else
      let catalog1 :=
        match findOne st.catalog contentId with
        | some existing =>
          saveEntry st.catalog { existing with
            localPath := some finalPath, fileSizeMB := size, isActive := true }
        | none =>
          let newRecord : CatalogEntry :=
            { contentId := contentId, title := metaTitle,
              localPath := some finalPath, fileSizeMB := size,
              priority := metaPriority.getD 1, accessCount := 0,
              lastAccessed := now, isActive := true }
          st.catalog ++ [newRecord]
      (.ok finalPath size,
        checkAndCleanup trailerPath maxGB maxVideos { catalog := catalog1, fs := fs1 })

/-! ## Download service (`src/backend/services/downloadService.js`)

The lock table `this.locks` (a `Map` used as a set of content ids) is a
`List String`.  This section gives the sequential, single-invocation model of
`downloadAndStore` with injected outcomes for the fetch and the catalog
write; the concurrent interleaving model used for the deduplication claim
follows in the `Dedup` section. -/

/-- Whole state seen by one `downloadAndStore` invocation. -/
structure DlState where
  store : StoreState
  locks : List String
  deriving Repr, DecidableEq

/-- Result of `downloadAndStore`: the returned path or the thrown error. -/
inductive DlResult where
  | ok (path : String)
  | err (msg : String)
  deriving Repr, DecidableEq

/-- `acquireLock(contentId)` (lines 24–31): compare-and-insert into the lock
set; `false` when already held. -/
def acquireLock (locks : List String) (cid : String) : Bool × List String :=
  if locks.contains cid then (false, locks) else (true, cid :: locks)

/-- `releaseLock(contentId)` (lines 34–37): `this.locks.delete(contentId)`. -/
def releaseLock (locks : List String) (cid : String) : List String :=
  locks.filter (fun l => l ≠ cid)

/-- First stage of `downloadAndStore` (lines 120–135): the pre-lock catalog
check.  An active document whose file exists is returned at once; an active
document whose file is missing is marked inactive (its `localPath` is left as
stored) and the invocation falls through to the lock.  Result: the early
return value (if any) and the possibly-healed state. -/
def dlInitialCheck (st : DlState) (cid : String) : Option String × DlState :=
  match findOne st.store.catalog cid with
  | some existingRecord =>
    if existingRecord.isActive then
      if optExists st.store.fs existingRecord.localPath then
        (existingRecord.localPath, st)
      else
        (none, { st with store := { st.store with
          catalog := saveEntry st.store.catalog { existingRecord with isActive := false } } })
    else (none, st)
  | none => (none, st)

/-- The double-check after lock acquisition (lines 143–152):
`findOne({ contentId, isActive: true })` followed by
`fs.existsSync(doubleCheck.localPath)`; returns the hit path if both succeed. -/
def dlDoubleCheckHit (st : DlState) (cid : String) : Option String :=
  match findOneActive st.store.catalog cid with
  | some doubleCheck =>
    if optExists st.store.fs doubleCheck.localPath then doubleCheck.localPath else none
  | none => none

/-- Body of `downloadAndStore` executed with the lock held (lines 143–173):
double-check, fetch (`downloadYouTubeMP4`, success injected via `fetchOk`;
on success the temp file appears in the filesystem), then
`storageManager.saveVideo`.  (`cleanupTempFiles()` on line 171 only ages out
files of the temp directory and is not modelled; no claim concerns it.)
The caller applies the `finally` lock release to the returned state. -/
def downloadAndStoreLocked (trailerPath : String) (maxGB maxVideos : Nat) (st : DlState)
    (contentId : String) (metaTitle : String) (metaPriority : Option Nat)
    (tempPath : String) (tempContent : List Nat) (now : Nat)
    (fetchOk : Bool) (catalogWriteFails : Bool) : DlResult × DlState :=
  match dlDoubleCheckHit st contentId with
  | some p => (.ok p, st)
  | none =>
    if fetchOk = false then
      (.err "Download failed", st)
    else
      let fsT := fsWrite st.store.fs tempPath tempContent
      let saved := saveVideo trailerPath maxGB maxVideos
        { catalog := st.store.catalog, fs := fsT } contentId tempPath
        metaTitle metaPriority now catalogWriteFails
      match saved.1 with
      | .ok p _ => (.ok p, { st with store := saved.2 })
      | .err m => (.err m, { st with store := saved.2 })

/-- `downloadAndStore(contentId, youtubeUrl, metadata)` (lines 111–184),
sequential single-invocation model.  `waitForLock` (lines 40–52) polls while
the lock is held; within a single invocation nobody else releases it, so a
held lock means the 30-second timeout elapses and the timeout error is
thrown before any acquisition (`lockAcquired` stays `false`).  Otherwise the
lock is acquired, the locked body runs, and the `finally` (lines 178–183)
releases the lock on every path.  Result: `(result, final state, lockAcquired)`. -/
def downloadAndStore (trailerPath : String) (maxGB maxVideos : Nat) (st : DlState)
    (contentId : String) (metaTitle : String) (metaPriority : Option Nat)
    (tempPath : String) (tempContent : List Nat) (now : Nat)
    (fetchOk : Bool) (catalogWriteFails : Bool) : DlResult × DlState × Bool :=
  let checked := dlInitialCheck st contentId
  match checked.1 with
  | some p => (.ok p, checked.2, false)
  | none =>
    let st0 := checked.2
    if st0.locks.contains contentId then
      (.err ("Timeout waiting for lock: " ++ contentId), st0, false)
    else
      let st1 := { st0 with locks := contentId :: st0.locks }
      let body := downloadAndStoreLocked trailerPath maxGB maxVideos st1 contentId
        metaTitle metaPriority tempPath tempContent now fetchOk catalogWriteFails
      (body.1, { body.2 with locks := releaseLock body.2.locks contentId }, true)

/-! ## Interleaving model of concurrent `downloadAndStore` invocations

Node.js runs one invocation's code synchronously between `await` points, so a
system of `n` concurrent `downloadAndStore(contentId, …)` invocations for one
fixed `contentId` is an interleaving of atomic blocks.  Each block of the
source becomes one transition of the `Dedup.Step` relation below (source
positions in the constructor comments).  The machine covers the scenario of
the deduplication claim: every fetch succeeds and no lock wait reaches its
timeout (a timing-out waiter would throw instead of returning, which the
claim's "all N return" scenario excludes).  Eviction does not run (capacity
is below its 90% thresholds).  The final path is `getVideoPath trailerPath
contentId`, abbreviated `fp`. -/

namespace Dedup

/-- Program counter of one invocation: which atomic block runs next.
`done p` records a completed invocation and its returned path. -/
inductive PC where
  /-- before the initial catalog check (`downloadService.js` 120–135) -/
  | start
  /-- inside the `waitForLock` poll loop (40–52) -/
  | waiting
  /-- lock held, before the post-lock double-check (143–152) -/
  | lockedCheck
  /-- lock held, `downloadYouTubeMP4` in flight (155) -/
  | fetching
  /-- lock held, fetch finished, before `copyFileSync` (`storageManager.js` 92–105) -/
  | fetched
  /-- lock held, file copied, catalog transaction open (112–148) -/
  | copied
  /-- lock held, transaction committed (149), before the `finally` release (178–183) -/
  | committed
  /-- returned `p` -/
  | done (p : String)
  deriving Repr, DecidableEq

/-- `pc` holds the content lock. -/
def PC.holdsLock : PC → Bool
  | .lockedCheck | .fetching | .fetched | .copied | .committed => true
  | _ => false

/-- `pc` is inside the fetch-to-commit critical section (a fetch has been
started whose result is not yet committed to the catalog). -/
def PC.inFetch : PC → Bool
  | .fetching | .fetched | .copied => true
  | _ => false

/-- Shared state plus the `n` program counters.  `entry` is the
`TrailerStorage` document for `contentId` as `(isActive, localPath)` (`none`
when no document exists); `file` is `fs.existsSync(fp)`; `fetchCount` counts
started `downloadYouTubeMP4` invocations. -/
structure MState (n : Nat) where
  lock : Bool
  entry : Option (Bool × String)
  file : Bool
  fetchCount : Nat
  procs : Fin n → PC

/-- The document exists and `isActive` is true. -/
def entryActiveB : Option (Bool × String) → Bool
  | some (true, _) => true
  | _ => false

/-- One atomic block of one invocation `i`. -/
inductive Step (fp : String) {n : Nat} : MState n → MState n → Prop where
  /-- Initial check, hit (126–128): active document, file exists ⇒ return its path. -/
  | checkHit (s : MState n) (i : Fin n) (p : String)
      (hpc : s.procs i = .start) (he : s.entry = some (true, p)) (hf : s.file = true) :
      Step fp s { s with procs := Function.update s.procs i (.done p) }
  /-- Initial check, file missing (129–134): mark inactive (`localPath` kept),
  fall through to the lock wait. -/
  | checkHeal (s : MState n) (i : Fin n) (p : String)
      (hpc : s.procs i = .start) (he : s.entry = some (true, p)) (hf : s.file = false) :
      Step fp s { s with
        entry := some (false, p),
        procs := Function.update s.procs i .waiting }
  /-- Initial check, no active document (124): fall through to the lock wait. -/
  | checkMiss (s : MState n) (i : Fin n)
      (hpc : s.procs i = .start) (he : entryActiveB s.entry = false) :
      Step fp s { s with procs := Function.update s.procs i .waiting }
  /-- One `waitForLock` poll finds the lock free and `acquireLock` takes it
  (43, 51, 24–31; the `has`-check and the insert run in one synchronous block). -/
  | tryLock (s : MState n) (i : Fin n)
      (hpc : s.procs i = .waiting) (hl : s.lock = false) :
      Step fp s { s with
        lock := true,
        procs := Function.update s.procs i .lockedCheck }
  /-- Double-check hit (149–152): another invocation committed while waiting;
  return its path, releasing the lock in the `finally`. -/
  | doubleHit (s : MState n) (i : Fin n) (p : String)
      (hpc : s.procs i = .lockedCheck) (he : s.entry = some (true, p)) (hf : s.file = true) :
      Step fp s { s with
        lock := false,
        procs := Function.update s.procs i (.done p) }
  /-- Double-check miss (149, 155): start `downloadYouTubeMP4` in the same
  synchronous block. -/
  | doubleMiss (s : MState n) (i : Fin n)
      (hpc : s.procs i = .lockedCheck)
      (hm : ¬(entryActiveB s.entry = true ∧ s.file = true)) :
      Step fp s { s with
        fetchCount := s.fetchCount + 1,
        procs := Function.update s.procs i .fetching }
  /-- The fetch completes successfully (155, then `saveVideo` up to its first
  `await` on `storageManager.js` 92). -/
  | fetchDone (s : MState n) (i : Fin n)
      (hpc : s.procs i = .fetching) :
      Step fp s { s with procs := Function.update s.procs i .fetched }
  /-- `copyFileSync(tempFilePath, finalPath)` (105): the file at `fp` appears. -/
  | copyDone (s : MState n) (i : Fin n)
      (hpc : s.procs i = .fetched) :
      Step fp s { s with
        file := true,
        procs := Function.update s.procs i .copied }
  /-- The catalog transaction commits (112–149): the document for `contentId`
  becomes active with `localPath = fp`, atomically visible at commit. -/
  | commitDone (s : MState n) (i : Fin n)
      (hpc : s.procs i = .copied) :
      Step fp s { s with
        entry := some (true, fp),
        procs := Function.update s.procs i .committed }
  /-- Return of `result.path` and the `finally` lock release (173, 178–183). -/
  | releaseDone (s : MState n) (i : Fin n)
      (hpc : s.procs i = .committed) :
      Step fp s { s with
        lock := false,
        procs := Function.update s.procs i (.done fp) }

/-- Admissible initial states: lock free, no active document (the claim's
"no active catalog entry exists beforehand"; a pre-existing inactive document
must carry the deterministic path `fp`), no fetch started, everybody at the
initial check. -/
def Init (fp : String) {n : Nat} (s : MState n) : Prop :=
  s.lock = false ∧ entryActiveB s.entry = false ∧ s.fetchCount = 0 ∧
  (∀ b p, s.entry = some (b, p) → p = fp) ∧
  (∀ i, s.procs i = .start)

/-- States reachable from an admissible initial state. -/
inductive Reachable (fp : String) {n : Nat} : MState n → Prop where
  | init (s : MState n) (h : Init fp s) : Reachable fp s
  | step (s s' : MState n) (hr : Reachable fp s) (hs : Step fp s s') : Reachable fp s'

/-- The inductive invariant of the machine. -/
structure Inv (fp : String) {n : Nat} (s : MState n) : Prop where
  /-- the lock flag is set exactly when some invocation holds the lock -/
  lock_iff : s.lock = true ↔ ∃ i, (s.procs i).holdsLock = true
  /-- at most one invocation holds the lock -/
  locked_unique : ∀ i j, (s.procs i).holdsLock = true → (s.procs j).holdsLock = true → i = j
  /-- an active document's file exists -/
  active_file : entryActiveB s.entry = true → s.file = true
  /-- the document's path is the deterministic final path -/
  entry_path : ∀ b p, s.entry = some (b, p) → p = fp
  /-- while a fetch is uncommitted there is no active document -/
  fetch_inactive : ∀ i, (s.procs i).inFetch = true → entryActiveB s.entry = false
  /-- fetch accounting: one uncommitted fetch in flight or one committed result -/
  fetch_count : s.fetchCount =
    (if ∃ i, (s.procs i).inFetch = true then 1 else 0) +
    (if entryActiveB s.entry = true then 1 else 0)
  /-- every completed invocation returned the final path -/
  done_path : ∀ i p, s.procs i = .done p → p = fp
  /-- once somebody returned, the document is active -/
  done_active : ∀ i p, s.procs i = .done p → entryActiveB s.entry = true
  /-- after the copy (and after the commit) the file exists -/
  copied_file : ∀ i, (s.procs i = .copied ∨ s.procs i = .committed) → s.file = true
  /-- after the commit the document is active -/
  committed_active : ∀ i, s.procs i = .committed → entryActiveB s.entry = true

end Dedup

/-! ## Concrete states used by counterexamples and witnesses -/

/-- Priority-1 entry, least recently accessed (the claims' "old" priority-1 entry). -/
def e1C : CatalogEntry :=
  { contentId := "movie_1", title := "A", localPath := some "t/movie_1.mp4",
    fileSizeMB := 10, priority := 1, accessCount := 3, lastAccessed := 100, isActive := true }

/-- Priority-1 entry, recently accessed (the claims' "new" priority-1 entry). -/
def e2C : CatalogEntry :=
  { contentId := "movie_2", title := "B", localPath := some "t/movie_2.mp4",
    fileSizeMB := 10, priority := 1, accessCount := 5, lastAccessed := 200, isActive := true }

/-- Priority-2 entry, least recently accessed (the claims' priority-2 entry). -/
def e3C : CatalogEntry :=
  { contentId := "movie_3", title := "C", localPath := some "t/movie_3.mp4",
    fileSizeMB := 10, priority := 2, accessCount := 1, lastAccessed := 100, isActive := true }

/-- Store with priorities `[1,1,2]` and `lastAccessed` ages `[old,new,old]`. -/
def stC3 : StoreState :=
  { catalog := [e1C, e2C, e3C],
    fs := [("t/movie_1.mp4", [1, 1]), ("t/movie_2.mp4", [2, 2]), ("t/movie_3.mp4", [3, 3])] }

/-- Active entry whose file is missing from the filesystem. -/
def e5C : CatalogEntry :=
  { contentId := "movie_9", title := "Ghost", localPath := some "t/movie_9.mp4",
    fileSizeMB := 5, priority := 1, accessCount := 2, lastAccessed := 50, isActive := true }

/-- Store holding only `e5C`, with an empty filesystem (file deleted out-of-band). -/
def stC5 : StoreState := { catalog := [e5C], fs := [] }

/-- Active entry whose file exists (a genuine cache hit). -/
def e8C : CatalogEntry :=
  { contentId := "movie_7", title := "Hit", localPath := some "t/movie_7.mp4",
    fileSizeMB := 4, priority := 1, accessCount := 6, lastAccessed := 40, isActive := true }

/-- Store holding `e8C` and its file. -/
def stC8 : StoreState := { catalog := [e8C], fs := [("t/movie_7.mp4", [1, 2, 3, 4])] }

/-- Store with an empty catalog and one downloaded temp file. -/
def stC6 : StoreState := { catalog := [], fs := [("temp-downloads/x.mp4", [7, 7])] }

/-- Previously committed active entry for `movie_5` referencing its final path. -/
def e10C : CatalogEntry :=
  { contentId := "movie_5", title := "Re", localPath := some (getVideoPath "t" "movie_5"),
    fileSizeMB := 9, priority := 2, accessCount := 1, lastAccessed := 30, isActive := true }

/-- Store with `e10C` committed (file in place) and a fresh temp download. -/
def stC10 : StoreState :=
  { catalog := [e10C],
    fs := [(getVideoPath "t" "movie_5", [1, 2, 3]), ("temp-downloads/y.mp4", [9, 9, 9, 9])] }

/-- Empty initial state for a `downloadAndStore` run. -/
def dlC7 : DlState := { store := { catalog := [], fs := [] }, locks := [] }

/-- Initial machine state for one invocation: lock free, no document, no file. -/
def c1s0 : Dedup.MState 1 :=
  { lock := false, entry := none, file := false, fetchCount := 0, procs := fun _ => .start }

/-! # Theorems

## The deduplication machine: inductive invariant -/

namespace Dedup

/-- An updated program-counter table agrees with the new value at the updated
index and with the old table elsewhere. -/
theorem update_eq_cases {n : Nat} (procs : Fin n → PC) (i j : Fin n) (v : PC) :
    Function.update procs i v j = v ∧ j = i ∨
    Function.update procs i v j = procs j ∧ j ≠ i := by
  rcases eq_or_ne j i with rfl | hne
  · exact Or.inl ⟨Function.update_same .., rfl⟩
  · exact Or.inr ⟨Function.update_noteq hne .., hne⟩

/-- Updating position `i` with a value that satisfies `P` exactly when the old
value did does not change whether some position satisfies `P`. -/
theorem exists_update_congr {n : Nat} {procs : Fin n → PC} {i : Fin n} {v : PC}
    {P : PC → Prop} (hsame : P v ↔ P (procs i)) :
    (∃ j, P (Function.update procs i v j)) ↔ (∃ j, P (procs j)) := by
  constructor
  · rintro ⟨j, hj⟩
    rcases update_eq_cases procs i j v with ⟨hu, _⟩ | ⟨hu, _⟩ <;> rw [hu] at hj
    · exact ⟨i, hsame.mp hj⟩
    · exact ⟨j, hj⟩
  · rintro ⟨j, hj⟩
    rcases eq_or_ne j i with rfl | hne
    · exact ⟨j, by rw [Function.update_same]; exact hsame.mpr hj⟩
    · exact ⟨j, by rw [Function.update_noteq hne]; exact hj⟩

/-- A program counter in the fetch section holds the lock. -/
theorem holdsLock_of_inFetch : ∀ pc : PC, pc.inFetch = true → pc.holdsLock = true := by
  intro pc h
  cases pc <;> first | rfl | exact Bool.noConfusion h

/-- Admissible initial states satisfy the invariant. -/
theorem inv_init {fp : String} {n : Nat} {s : MState n} (h : Init fp s) : Inv fp s := by
  obtain ⟨hl, hact, hfc, hpath, hstart⟩ := h
  have hnoLock : ¬ ∃ j, (s.procs j).holdsLock = true := by
    rintro ⟨j, hj⟩
    rw [hstart j] at hj
    exact Bool.noConfusion hj
  have hnoFetch : ¬ ∃ j, (s.procs j).inFetch = true := by
    rintro ⟨j, hj⟩
    rw [hstart j] at hj
    exact Bool.noConfusion hj
  refine ⟨?_, ?_, ?_, ?_, ?_, ?_, ?_, ?_, ?_, ?_⟩
  · rw [hl]
    exact ⟨fun hh => Bool.noConfusion hh, fun hh => absurd hh hnoLock⟩
  · intro j k hj _
    rw [hstart j] at hj
    exact Bool.noConfusion hj
  · intro ha
    rw [hact] at ha
    exact Bool.noConfusion ha
  · exact hpath
  · intro j hj
    rw [hstart j] at hj
    exact Bool.noConfusion hj
  · rw [hfc, hact, if_neg hnoFetch]
    simp
  · intro j p hj
    rw [hstart j] at hj
    exact PC.noConfusion hj
  · intro j p hj
    rw [hstart j] at hj
    exact PC.noConfusion hj
  · intro j hj
    rcases hj with hc | hc <;> rw [hstart j] at hc <;> exact PC.noConfusion hc
  · intro j hj
    rw [hstart j] at hj
    exact PC.noConfusion hj

/-- Invariant preservation: initial-check hit (`checkHit`). -/
theorem inv_checkHit {fp : String} {n : Nat} {s : MState n} {i : Fin n} {p : String}
    (hi : Inv fp s) (hpc : s.procs i = .start) (he : s.entry = some (true, p))
    (hf : s.file = true) :
    Inv fp { s with procs := Function.update s.procs i (.done p) } := by
  obtain ⟨l_iff, l_uni, a_file, e_path, f_inact, f_cnt, d_path, d_act, c_file, cm_act⟩ := hi
  have hsameL : ((PC.done p).holdsLock = true) ↔ ((s.procs i).holdsLock = true) := by
    rw [hpc]; exact Iff.rfl
  have hsameF : ((PC.done p).inFetch = true) ↔ ((s.procs i).inFetch = true) := by
    rw [hpc]; exact Iff.rfl
  refine ⟨?_, ?_, ?_, ?_, ?_, ?_, ?_, ?_, ?_, ?_⟩ <;> dsimp only
  · exact l_iff.trans
      (exists_update_congr (P := fun pc => pc.holdsLock = true) hsameL).symm
  · intro j k hj hk
    rcases update_eq_cases s.procs i j (.done p) with ⟨hu, _⟩ | ⟨hu, _⟩ <;> rw [hu] at hj
    · exact Bool.noConfusion hj
    rcases update_eq_cases s.procs i k (.done p) with ⟨hu2, _⟩ | ⟨hu2, _⟩ <;> rw [hu2] at hk
    · exact Bool.noConfusion hk
    · exact l_uni j k hj hk
  · exact a_file
  · exact e_path
  · intro j hj
    rcases update_eq_cases s.procs i j (.done p) with ⟨hu, _⟩ | ⟨hu, _⟩ <;> rw [hu] at hj
    · exact Bool.noConfusion hj
    · exact f_inact j hj
  · rw [f_cnt]
    congr 1
    exact if_congr (exists_update_congr (P := fun pc => pc.inFetch = true) hsameF).symm
      rfl rfl
  · intro j q hj
    rcases update_eq_cases s.procs i j (.done p) with ⟨hu, _⟩ | ⟨hu, _⟩ <;> rw [hu] at hj
    · injection hj with h
      rw [← h]
      exact e_path true p he
    · exact d_path j q hj
  · intro j q hj
    rw [he]
    rfl
  · intro j hj
    rcases hj with h | h <;>
      rcases update_eq_cases s.procs i j (.done p) with ⟨hu, _⟩ | ⟨hu, _⟩ <;> rw [hu] at h
    · exact PC.noConfusion h
    · exact c_file j (Or.inl h)
    · exact PC.noConfusion h
    · exact c_file j (Or.inr h)
  · intro j hj
    rcases update_eq_cases s.procs i j (.done p) with ⟨hu, _⟩ | ⟨hu, _⟩ <;> rw [hu] at hj
    · exact PC.noConfusion hj
    · exact cm_act j hj

/-- Invariant preservation: initial-check self-heal (`checkHeal`).  The guard
(active document, missing file) contradicts the invariant's `active_file`, so
this transition never fires from an invariant state. -/
theorem inv_checkHeal {fp : String} {n : Nat} {s : MState n} {i : Fin n} {p : String}
    (hi : Inv fp s) (hpc : s.procs i = .start) (he : s.entry = some (true, p))
    (hf : s.file = false) :
    Inv fp { s with
      entry := some (false, p),
      procs := Function.update s.procs i .waiting } := by
  have h1 : s.file = true := hi.active_file (by rw [he]; rfl)
  rw [hf] at h1
  exact Bool.noConfusion h1

/-- Invariant preservation: initial-check miss (`checkMiss`). -/
theorem inv_checkMiss {fp : String} {n : Nat} {s : MState n} {i : Fin n}
    (hi : Inv fp s) (hpc : s.procs i = .start) :
    Inv fp { s with procs := Function.update s.procs i .waiting } := by
  obtain ⟨l_iff, l_uni, a_file, e_path, f_inact, f_cnt, d_path, d_act, c_file, cm_act⟩ := hi
  have hsameL : (PC.waiting.holdsLock = true) ↔ ((s.procs i).holdsLock = true) := by
    rw [hpc]; exact Iff.rfl
  have hsameF : (PC.waiting.inFetch = true) ↔ ((s.procs i).inFetch = true) := by
    rw [hpc]; exact Iff.rfl
  refine ⟨?_, ?_, ?_, ?_, ?_, ?_, ?_, ?_, ?_, ?_⟩ <;> dsimp only
  · exact l_iff.trans
      (exists_update_congr (P := fun pc => pc.holdsLock = true) hsameL).symm
  · intro j k hj hk
    rcases update_eq_cases s.procs i j .waiting with ⟨hu, _⟩ | ⟨hu, _⟩ <;> rw [hu] at hj
    · exact Bool.noConfusion hj
    rcases update_eq_cases s.procs i k .waiting with ⟨hu2, _⟩ | ⟨hu2, _⟩ <;> rw [hu2] at hk
    · exact Bool.noConfusion hk
    · exact l_uni j k hj hk
  · exact a_file
  · exact e_path
  · intro j hj
    rcases update_eq_cases s.procs i j .waiting with ⟨hu, _⟩ | ⟨hu, _⟩ <;> rw [hu] at hj
    · exact Bool.noConfusion hj
    · exact f_inact j hj
  · rw [f_cnt]
    congr 1
    exact if_congr (exists_update_congr (P := fun pc => pc.inFetch = true) hsameF).symm
      rfl rfl
  · intro j q hj
    rcases update_eq_cases s.procs i j .waiting with ⟨hu, _⟩ | ⟨hu, _⟩ <;> rw [hu] at hj
    · exact PC.noConfusion hj
    · exact d_path j q hj
  · intro j q hj
    rcases update_eq_cases s.procs i j .waiting with ⟨hu, _⟩ | ⟨hu, _⟩ <;> rw [hu] at hj
    · exact PC.noConfusion hj
    · exact d_act j q hj
  · intro j hj
    rcases hj with h | h <;>
      rcases update_eq_cases s.procs i j .waiting with ⟨hu, _⟩ | ⟨hu, _⟩ <;> rw [hu] at h
    · exact PC.noConfusion h
    · exact c_file j (Or.inl h)
    · exact PC.noConfusion h
    · exact c_file j (Or.inr h)
  · intro j hj
    rcases update_eq_cases s.procs i j .waiting with ⟨hu, _⟩ | ⟨hu, _⟩ <;> rw [hu] at hj
    · exact PC.noConfusion hj
    · exact cm_act j hj

/-- Invariant preservation: lock acquisition (`tryLock`). -/
theorem inv_tryLock {fp : String} {n : Nat} {s : MState n} {i : Fin n}
    (hi : Inv fp s) (hpc : s.procs i = .waiting) (hl : s.lock = false) :
    Inv fp { s with
      lock := true,
      procs := Function.update s.procs i .lockedCheck } := by
  obtain ⟨l_iff, l_uni, a_file, e_path, f_inact, f_cnt, d_path, d_act, c_file, cm_act⟩ := hi
  have hnone : ∀ j, (s.procs j).holdsLock = false := by
    intro j
    cases hjh : (s.procs j).holdsLock
    · rfl
    · have h2 := l_iff.mpr ⟨j, hjh⟩
      rw [hl] at h2
      exact Bool.noConfusion h2
  have hsameF : (PC.lockedCheck.inFetch = true) ↔ ((s.procs i).inFetch = true) := by
    rw [hpc]; exact Iff.rfl
  refine ⟨?_, ?_, ?_, ?_, ?_, ?_, ?_, ?_, ?_, ?_⟩ <;> dsimp only
  · constructor
    · intro _
      exact ⟨i, by rw [Function.update_same]; rfl⟩
    · intro _
      rfl
  · intro j k hj hk
    rcases update_eq_cases s.procs i j .lockedCheck with ⟨hu, hji⟩ | ⟨hu, _⟩ <;> rw [hu] at hj
    · rcases update_eq_cases s.procs i k .lockedCheck with ⟨hu2, hki⟩ | ⟨hu2, _⟩ <;>
        rw [hu2] at hk
      · rw [hji, hki]
      · rw [hnone k] at hk
        exact Bool.noConfusion hk
    · rw [hnone j] at hj
      exact Bool.noConfusion hj
  · exact a_file
  · exact e_path
  · intro j hj
    rcases update_eq_cases s.procs i j .lockedCheck with ⟨hu, _⟩ | ⟨hu, _⟩ <;> rw [hu] at hj
    · exact Bool.noConfusion hj
    · exact f_inact j hj
  · rw [f_cnt]
    congr 1
    exact if_congr (exists_update_congr (P := fun pc => pc.inFetch = true) hsameF).symm
      rfl rfl
  · intro j q hj
    rcases update_eq_cases s.procs i j .lockedCheck with ⟨hu, _⟩ | ⟨hu, _⟩ <;> rw [hu] at hj
    · exact PC.noConfusion hj
    · exact d_path j q hj
  · intro j q hj
    rcases update_eq_cases s.procs i j .lockedCheck with ⟨hu, _⟩ | ⟨hu, _⟩ <;> rw [hu] at hj
    · exact PC.noConfusion hj
    · exact d_act j q hj
  · intro j hj
    rcases hj with h | h <;>
      rcases update_eq_cases s.procs i j .lockedCheck with ⟨hu, _⟩ | ⟨hu, _⟩ <;> rw [hu] at h
    · exact PC.noConfusion h
    · exact c_file j (Or.inl h)
    · exact PC.noConfusion h
    · exact c_file j (Or.inr h)
  · intro j hj
    rcases update_eq_cases s.procs i j .lockedCheck with ⟨hu, _⟩ | ⟨hu, _⟩ <;> rw [hu] at hj
    · exact PC.noConfusion hj
    · exact cm_act j hj

/-- Invariant preservation: double-check hit (`doubleHit`). -/
theorem inv_doubleHit {fp : String} {n : Nat} {s : MState n} {i : Fin n} {p : String}
    (hi : Inv fp s) (hpc : s.procs i = .lockedCheck) (he : s.entry = some (true, p))
    (hf : s.file = true) :
    Inv fp { s with
      lock := false,
      procs := Function.update s.procs i (.done p) } := by
  obtain ⟨l_iff, l_uni, a_file, e_path, f_inact, f_cnt, d_path, d_act, c_file, cm_act⟩ := hi
  have honly : ∀ j, (s.procs j).holdsLock = true → j = i := fun j hj =>
    l_uni j i hj (by rw [hpc]; rfl)
  have hnewNone : ∀ j, ((Function.update s.procs i (PC.done p)) j).holdsLock = false := by
    intro j
    rcases update_eq_cases s.procs i j (.done p) with ⟨hu, _⟩ | ⟨hu, hji⟩ <;> rw [hu]
    · rfl
    · cases hjh : (s.procs j).holdsLock
      · rfl
      · exact absurd (honly j hjh) hji
  have hsameF : ((PC.done p).inFetch = true) ↔ ((s.procs i).inFetch = true) := by
    rw [hpc]; exact Iff.rfl
  refine ⟨?_, ?_, ?_, ?_, ?_, ?_, ?_, ?_, ?_, ?_⟩ <;> dsimp only
  · constructor
    · intro hh
      exact Bool.noConfusion hh
    · rintro ⟨j, hj⟩
      rw [hnewNone j] at hj
      exact Bool.noConfusion hj
  · intro j k hj _
    rw [hnewNone j] at hj
    exact Bool.noConfusion hj
  · exact a_file
  · exact e_path
  · intro j hj
    rcases update_eq_cases s.procs i j (.done p) with ⟨hu, _⟩ | ⟨hu, _⟩ <;> rw [hu] at hj
    · exact Bool.noConfusion hj
    · exact f_inact j hj
  · rw [f_cnt]
    congr 1
    exact if_congr (exists_update_congr (P := fun pc => pc.inFetch = true) hsameF).symm
      rfl rfl
  · intro j q hj
    rcases update_eq_cases s.procs i j (.done p) with ⟨hu, _⟩ | ⟨hu, _⟩ <;> rw [hu] at hj
    · injection hj with h
      rw [← h]
      exact e_path true p he
    · exact d_path j q hj
  · intro j q hj
    rw [he]
    rfl
  · intro j hj
    rcases hj with h | h <;>
      rcases update_eq_cases s.procs i j (.done p) with ⟨hu, _⟩ | ⟨hu, _⟩ <;> rw [hu] at h
    · exact PC.noConfusion h
    · exact c_file j (Or.inl h)
    · exact PC.noConfusion h
    · exact c_file j (Or.inr h)
  · intro j hj
    rcases update_eq_cases s.procs i j (.done p) with ⟨hu, _⟩ | ⟨hu, _⟩ <;> rw [hu] at hj
    · exact PC.noConfusion hj
    · exact cm_act j hj

/-- Invariant preservation: double-check miss starting the fetch (`doubleMiss`). -/
theorem inv_doubleMiss {fp : String} {n : Nat} {s : MState n} {i : Fin n}
    (hi : Inv fp s) (hpc : s.procs i = .lockedCheck)
    (hm : ¬(entryActiveB s.entry = true ∧ s.file = true)) :
    Inv fp { s with
      fetchCount := s.fetchCount + 1,
      procs := Function.update s.procs i .fetching } := by
  obtain ⟨l_iff, l_uni, a_file, e_path, f_inact, f_cnt, d_path, d_act, c_file, cm_act⟩ := hi
  have hact : entryActiveB s.entry = false := by
    cases hA : entryActiveB s.entry
    · rfl
    · exact absurd ⟨hA, a_file hA⟩ hm
  have honly : ∀ j, (s.procs j).holdsLock = true → j = i := fun j hj =>
    l_uni j i hj (by rw [hpc]; rfl)
  have hnoF : ¬ ∃ j, (s.procs j).inFetch = true := by
    rintro ⟨j, hj⟩
    have hji := honly j (holdsLock_of_inFetch _ hj)
    rw [hji, hpc] at hj
    exact Bool.noConfusion hj
  have hcol : ∀ j, ((Function.update s.procs i PC.fetching) j).holdsLock = true → j = i := by
    intro j hj
    rcases update_eq_cases s.procs i j .fetching with ⟨hu, hji⟩ | ⟨hu, _⟩ <;> rw [hu] at hj
    · exact hji
    · exact honly j hj
  refine ⟨?_, ?_, ?_, ?_, ?_, ?_, ?_, ?_, ?_, ?_⟩ <;> dsimp only
  · constructor
    · intro _
      exact ⟨i, by rw [Function.update_same]; rfl⟩
    · intro _
      exact l_iff.mpr ⟨i, by rw [hpc]; rfl⟩
  · intro j k hj hk
    rw [hcol j hj, hcol k hk]
  · exact a_file
  · exact e_path
  · intro j hj
    exact hact
  · have h0 : s.fetchCount = 0 := by
      rw [f_cnt, hact, if_neg hnoF, if_neg (fun hh => Bool.noConfusion hh)]
    rw [if_pos ⟨i, show ((Function.update s.procs i PC.fetching) i).inFetch = true by
          rw [Function.update_same]; rfl⟩,
      hact, if_neg (fun hh => Bool.noConfusion hh)]
    omega
  · intro j q hj
    rcases update_eq_cases s.procs i j .fetching with ⟨hu, _⟩ | ⟨hu, _⟩ <;> rw [hu] at hj
    · exact PC.noConfusion hj
    · exact d_path j q hj
  · intro j q hj
    rcases update_eq_cases s.procs i j .fetching with ⟨hu, _⟩ | ⟨hu, _⟩ <;> rw [hu] at hj
    · exact PC.noConfusion hj
    · have h1 := d_act j q hj
      rw [hact] at h1
      exact Bool.noConfusion h1
  · intro j hj
    rcases hj with h | h <;>
      rcases update_eq_cases s.procs i j .fetching with ⟨hu, _⟩ | ⟨hu, _⟩ <;> rw [hu] at h
    · exact PC.noConfusion h
    · exact c_file j (Or.inl h)
    · exact PC.noConfusion h
    · exact c_file j (Or.inr h)
  · intro j hj
    rcases update_eq_cases s.procs i j .fetching with ⟨hu, _⟩ | ⟨hu, _⟩ <;> rw [hu] at hj
    · exact PC.noConfusion hj
    · exact cm_act j hj

/-- Invariant preservation: the fetch completes (`fetchDone`). -/
theorem inv_fetchDone {fp : String} {n : Nat} {s : MState n} {i : Fin n}
    (hi : Inv fp s) (hpc : s.procs i = .fetching) :
    Inv fp { s with procs := Function.update s.procs i .fetched } := by
  obtain ⟨l_iff, l_uni, a_file, e_path, f_inact, f_cnt, d_path, d_act, c_file, cm_act⟩ := hi
  have honly : ∀ j, (s.procs j).holdsLock = true → j = i := fun j hj =>
    l_uni j i hj (by rw [hpc]; rfl)
  have hcol : ∀ j, ((Function.update s.procs i PC.fetched) j).holdsLock = true → j = i := by
    intro j hj
    rcases update_eq_cases s.procs i j .fetched with ⟨hu, hji⟩ | ⟨hu, _⟩ <;> rw [hu] at hj
    · exact hji
    · exact honly j hj
  have hsameL : (PC.fetched.holdsLock = true) ↔ ((s.procs i).holdsLock = true) := by
    rw [hpc]; exact Iff.rfl
  have hsameF : (PC.fetched.inFetch = true) ↔ ((s.procs i).inFetch = true) := by
    rw [hpc]; exact Iff.rfl
  refine ⟨?_, ?_, ?_, ?_, ?_, ?_, ?_, ?_, ?_, ?_⟩ <;> dsimp only
  · exact l_iff.trans
      (exists_update_congr (P := fun pc => pc.holdsLock = true) hsameL).symm
  · intro j k hj hk
    rw [hcol j hj, hcol k hk]
  · exact a_file
  · exact e_path
  · intro j hj
    rcases update_eq_cases s.procs i j .fetched with ⟨hu, _⟩ | ⟨hu, _⟩ <;> rw [hu] at hj
    · exact f_inact i (by rw [hpc]; rfl)
    · exact f_inact j hj
  · rw [f_cnt]
    congr 1
    exact if_congr (exists_update_congr (P := fun pc => pc.inFetch = true) hsameF).symm
      rfl rfl
  · intro j q hj
    rcases update_eq_cases s.procs i j .fetched with ⟨hu, _⟩ | ⟨hu, _⟩ <;> rw [hu] at hj
    · exact PC.noConfusion hj
    · exact d_path j q hj
  · intro j q hj
    rcases update_eq_cases s.procs i j .fetched with ⟨hu, _⟩ | ⟨hu, _⟩ <;> rw [hu] at hj
    · exact PC.noConfusion hj
    · exact d_act j q hj
  · intro j hj
    rcases hj with h | h <;>
      rcases update_eq_cases s.procs i j .fetched with ⟨hu, _⟩ | ⟨hu, _⟩ <;> rw [hu] at h
    · exact PC.noConfusion h
    · exact c_file j (Or.inl h)
    · exact PC.noConfusion h
    · exact c_file j (Or.inr h)
  · intro j hj
    rcases update_eq_cases s.procs i j .fetched with ⟨hu, _⟩ | ⟨hu, _⟩ <;> rw [hu] at hj
    · exact PC.noConfusion hj
    · exact cm_act j hj

/-- Invariant preservation: the copy puts the file in place (`copyDone`). -/
theorem inv_copyDone {fp : String} {n : Nat} {s : MState n} {i : Fin n}
    (hi : Inv fp s) (hpc : s.procs i = .fetched) :
    Inv fp { s with
      file := true,
      procs := Function.update s.procs i .copied } := by
  obtain ⟨l_iff, l_uni, a_file, e_path, f_inact, f_cnt, d_path, d_act, c_file, cm_act⟩ := hi
  have honly : ∀ j, (s.procs j).holdsLock = true → j = i := fun j hj =>
    l_uni j i hj (by rw [hpc]; rfl)
  have hcol : ∀ j, ((Function.update s.procs i PC.copied) j).holdsLock = true → j = i := by
    intro j hj
    rcases update_eq_cases s.procs i j .copied with ⟨hu, hji⟩ | ⟨hu, _⟩ <;> rw [hu] at hj
    · exact hji
    · exact honly j hj
  have hsameL : (PC.copied.holdsLock = true) ↔ ((s.procs i).holdsLock = true) := by
    rw [hpc]; exact Iff.rfl
  have hsameF : (PC.copied.inFetch = true) ↔ ((s.procs i).inFetch = true) := by
    rw [hpc]; exact Iff.rfl
  refine ⟨?_, ?_, ?_, ?_, ?_, ?_, ?_, ?_, ?_, ?_⟩ <;> dsimp only
  · exact l_iff.trans
      (exists_update_congr (P := fun pc => pc.holdsLock = true) hsameL).symm
  · intro j k hj hk
    rw [hcol j hj, hcol k hk]
  · intro _
    rfl
  · exact e_path
  · intro j hj
    rcases update_eq_cases s.procs i j .copied with ⟨hu, _⟩ | ⟨hu, _⟩ <;> rw [hu] at hj
    · exact f_inact i (by rw [hpc]; rfl)
    · exact f_inact j hj
  · rw [f_cnt]
    congr 1
    exact if_congr (exists_update_congr (P := fun pc => pc.inFetch = true) hsameF).symm
      rfl rfl
  · intro j q hj
    rcases update_eq_cases s.procs i j .copied with ⟨hu, _⟩ | ⟨hu, _⟩ <;> rw [hu] at hj
    · exact PC.noConfusion hj
    · exact d_path j q hj
  · intro j q hj
    rcases update_eq_cases s.procs i j .copied with ⟨hu, _⟩ | ⟨hu, _⟩ <;> rw [hu] at hj
    · exact PC.noConfusion hj
    · exact d_act j q hj
  · intro j hj
    rfl
  · intro j hj
    rcases update_eq_cases s.procs i j .copied with ⟨hu, _⟩ | ⟨hu, _⟩ <;> rw [hu] at hj
    · exact PC.noConfusion hj
    · exact cm_act j hj

/-- Invariant preservation: the catalog transaction commits (`commitDone`). -/
theorem inv_commitDone {fp : String} {n : Nat} {s : MState n} {i : Fin n}
    (hi : Inv fp s) (hpc : s.procs i = .copied) :
    Inv fp { s with
      entry := some (true, fp),
      procs := Function.update s.procs i .committed } := by
  obtain ⟨l_iff, l_uni, a_file, e_path, f_inact, f_cnt, d_path, d_act, c_file, cm_act⟩ := hi
  have hfile : s.file = true := c_file i (Or.inl hpc)
  have hactOld : entryActiveB s.entry = false := f_inact i (by rw [hpc]; rfl)
  have honly : ∀ j, (s.procs j).holdsLock = true → j = i := fun j hj =>
    l_uni j i hj (by rw [hpc]; rfl)
  have hnewNoF : ∀ j, ((Function.update s.procs i PC.committed) j).inFetch = false := by
    intro j
    rcases update_eq_cases s.procs i j .committed with ⟨hu, _⟩ | ⟨hu, hji⟩ <;> rw [hu]
    · rfl
    · cases hjf : (s.procs j).inFetch
      · rfl
      · exact absurd (honly j (holdsLock_of_inFetch _ hjf)) hji
  have hsameL : (PC.committed.holdsLock = true) ↔ ((s.procs i).holdsLock = true) := by
    rw [hpc]; exact Iff.rfl
  refine ⟨?_, ?_, ?_, ?_, ?_, ?_, ?_, ?_, ?_, ?_⟩ <;> dsimp only
  · exact l_iff.trans
      (exists_update_congr (P := fun pc => pc.holdsLock = true) hsameL).symm
  · intro j k hj hk
    have hcol : ∀ m, ((Function.update s.procs i PC.committed) m).holdsLock = true → m = i := by
      intro m hm
      rcases update_eq_cases s.procs i m .committed with ⟨hu, hmi⟩ | ⟨hu, _⟩ <;> rw [hu] at hm
      · exact hmi
      · exact honly m hm
    rw [hcol j hj, hcol k hk]
  · intro _
    exact hfile
  · intro b q hq
    injection hq with h1
    injection h1 with _ h2
    exact h2.symm
  · intro j hj
    rw [hnewNoF j] at hj
    exact Bool.noConfusion hj
  · have h1 : s.fetchCount = 1 + 0 := by
      rw [f_cnt, if_pos ⟨i, show (s.procs i).inFetch = true by rw [hpc]; rfl⟩, hactOld,
        if_neg (fun hh => Bool.noConfusion hh)]
    have hnew : ¬ ∃ j, ((Function.update s.procs i PC.committed) j).inFetch = true := by
      rintro ⟨j, hj⟩
      rw [hnewNoF j] at hj
      exact Bool.noConfusion hj
    rw [if_neg hnew, if_pos (show entryActiveB (some (true, fp)) = true from rfl)]
    omega
  · intro j q hj
    rcases update_eq_cases s.procs i j .committed with ⟨hu, _⟩ | ⟨hu, _⟩ <;> rw [hu] at hj
    · exact PC.noConfusion hj
    · exact d_path j q hj
  · intro j q hj
    rfl
  · intro j hj
    exact hfile
  · intro j hj
    rfl

/-- Invariant preservation: return and lock release (`releaseDone`). -/
theorem inv_releaseDone {fp : String} {n : Nat} {s : MState n} {i : Fin n}
    (hi : Inv fp s) (hpc : s.procs i = .committed) :
    Inv fp { s with
      lock := false,
      procs := Function.update s.procs i (.done fp) } := by
  obtain ⟨l_iff, l_uni, a_file, e_path, f_inact, f_cnt, d_path, d_act, c_file, cm_act⟩ := hi
  have hactT : entryActiveB s.entry = true := cm_act i hpc
  have honly : ∀ j, (s.procs j).holdsLock = true → j = i := fun j hj =>
    l_uni j i hj (by rw [hpc]; rfl)
  have hnoFold : ¬ ∃ j, (s.procs j).inFetch = true := by
    rintro ⟨j, hj⟩
    have h1 := f_inact j hj
    rw [hactT] at h1
    exact Bool.noConfusion h1
  have hnewNone : ∀ j, ((Function.update s.procs i (PC.done fp)) j).holdsLock = false := by
    intro j
    rcases update_eq_cases s.procs i j (.done fp) with ⟨hu, _⟩ | ⟨hu, hji⟩ <;> rw [hu]
    · rfl
    · cases hjh : (s.procs j).holdsLock
      · rfl
      · exact absurd (honly j hjh) hji
  have hnewEx : ¬ ∃ j, ((Function.update s.procs i (PC.done fp)) j).inFetch = true := by
    rintro ⟨j, hj⟩
    rcases update_eq_cases s.procs i j (.done fp) with ⟨hu, _⟩ | ⟨hu, _⟩ <;> rw [hu] at hj
    · exact Bool.noConfusion hj
    · exact hnoFold ⟨j, hj⟩
  refine ⟨?_, ?_, ?_, ?_, ?_, ?_, ?_, ?_, ?_, ?_⟩ <;> dsimp only
  · constructor
    · intro hh
      exact Bool.noConfusion hh
    · rintro ⟨j, hj⟩
      rw [hnewNone j] at hj
      exact Bool.noConfusion hj
  · intro j k hj _
    rw [hnewNone j] at hj
    exact Bool.noConfusion hj
  · exact a_file
  · exact e_path
  · intro j hj
    exact absurd ⟨j, hj⟩ hnewEx
  · rw [f_cnt, if_neg hnoFold, if_neg hnewEx, if_pos hactT]
  · intro j q hj
    rcases update_eq_cases s.procs i j (.done fp) with ⟨hu, _⟩ | ⟨hu, _⟩ <;> rw [hu] at hj
    · injection hj with h
      exact h.symm
    · exact d_path j q hj
  · intro j q hj
    exact hactT
  · intro j hj
    rcases hj with h | h <;>
      rcases update_eq_cases s.procs i j (.done fp) with ⟨hu, _⟩ | ⟨hu, _⟩ <;> rw [hu] at h
    · exact PC.noConfusion h
    · exact c_file j (Or.inl h)
    · exact PC.noConfusion h
    · exact c_file j (Or.inr h)
  · intro j hj
    rcases update_eq_cases s.procs i j (.done fp) with ⟨hu, _⟩ | ⟨hu, _⟩ <;> rw [hu] at hj
    · exact PC.noConfusion hj
    · exact cm_act j hj

/-- The invariant is preserved by every transition. -/
theorem inv_step {fp : String} {n : Nat} {s s' : MState n}
    (hi : Inv fp s) (hs : Step fp s s') : Inv fp s' := by
  cases hs with
  | checkHit i p hpc he hf => exact inv_checkHit hi hpc he hf
  | checkHeal i p hpc he hf => exact inv_checkHeal hi hpc he hf
  | checkMiss i hpc he => exact inv_checkMiss hi hpc
  | tryLock i hpc hl => exact inv_tryLock hi hpc hl
  | doubleHit i p hpc he hf => exact inv_doubleHit hi hpc he hf
  | doubleMiss i hpc hm => exact inv_doubleMiss hi hpc hm
  | fetchDone i hpc => exact inv_fetchDone hi hpc
  | copyDone i hpc => exact inv_copyDone hi hpc
  | commitDone i hpc => exact inv_commitDone hi hpc
  | releaseDone i hpc => exact inv_releaseDone hi hpc

/-- Every reachable state satisfies the invariant. -/
theorem reachable_inv {fp : String} {n : Nat} {s : MState n} (h : Reachable fp s) :
    Inv fp s := by
  induction h with
  | init s h => exact inv_init h
  | step s s' hr hs ih => exact inv_step ih hs

end Dedup

/-- C1: for every number of concurrent `downloadAndStore` invocations with the
same `contentId` starting from a state with no active catalog entry, in every
reachable state of the interleaving machine (i) no two invocations are ever
inside `downloadYouTubeMP4` at the same time, (ii) every completed invocation
returned the deterministic final path `getVideoPath trailerPath contentId`,
and (iii) once all invocations have completed, exactly one
`downloadYouTubeMP4` invocation has occurred. -/
theorem c1_concurrent_dedup (trailerPath contentId : String) (n : Nat)
    (s : Dedup.MState n)
    (h : Dedup.Reachable (getVideoPath trailerPath contentId) s) :
    (∀ i j : Fin n, s.procs i = .fetching → s.procs j = .fetching → i = j)
    ∧ (∀ (i : Fin n) (p : String),
        s.procs i = .done p → p = getVideoPath trailerPath contentId)
    ∧ ((∀ i : Fin n, ∃ p, s.procs i = .done p) → 0 < n → s.fetchCount = 1) := by
  obtain ⟨l_iff, l_uni, a_file, e_path, f_inact, f_cnt, d_path, d_act, c_file, cm_act⟩ :=
    Dedup.reachable_inv h
  refine ⟨?_, d_path, ?_⟩
  · intro i j hi hj
    exact l_uni i j (by rw [hi]; rfl) (by rw [hj]; rfl)
  · intro hall hn
    obtain ⟨p, hp⟩ := hall ⟨0, hn⟩
    have hact := d_act ⟨0, hn⟩ p hp
    have hnoF : ¬ ∃ j, (s.procs j).inFetch = true := by
      rintro ⟨j, hj⟩
      obtain ⟨q, hq⟩ := hall j
      rw [hq] at hj
      exact Bool.noConfusion hj
    rw [f_cnt, if_neg hnoF, if_pos hact]

/-- Witness for C1: a complete one-invocation run of the machine from the
empty initial state reaches an all-done state with exactly one fetch. -/
theorem c1_concurrent_dedup_witness :
    ∃ s : Dedup.MState 1,
      Dedup.Reachable (getVideoPath "t" "a") s ∧ s.fetchCount = 1 := by
  have hInit : Dedup.Init (getVideoPath "t" "a") c1s0 := by
    unfold Dedup.Init
    exact ⟨rfl, ⟨rfl, ⟨rfl, ⟨fun b p hbp => Option.noConfusion hbp, fun _ => rfl⟩⟩⟩⟩
  have h0 : Dedup.Reachable (getVideoPath "t" "a") c1s0 := .init _ hInit
  have h1 := Dedup.Reachable.step _ _ h0 (Dedup.Step.checkMiss c1s0 0 rfl rfl)
  have h2 := Dedup.Reachable.step _ _ h1 (Dedup.Step.tryLock _ 0 (by decide) (by decide))
  have h3 := Dedup.Reachable.step _ _ h2 (Dedup.Step.doubleMiss _ 0 (by decide) (by decide))
  have h4 := Dedup.Reachable.step _ _ h3 (Dedup.Step.fetchDone _ 0 (by decide))
  have h5 := Dedup.Reachable.step _ _ h4 (Dedup.Step.copyDone _ 0 (by decide))
  have h6 := Dedup.Reachable.step _ _ h5 (Dedup.Step.commitDone _ 0 (by decide))
  have h7 := Dedup.Reachable.step _ _ h6 (Dedup.Step.releaseDone _ 0 (by decide))
  refine ⟨_, h7, ?_⟩
  refine (c1_concurrent_dedup "t" "a" 1 _ h7).2.2 ?_ (by decide)
  intro i
  refine ⟨getVideoPath "t" "a", ?_⟩
  have hi0 : i = 0 := Fin.eq_zero i
  rw [hi0]
  decide

/-! ## Stream serving (C2, C9) -/

/-- C2: for a stored file of size `S` and a parsed range header
`bytes=start-end` with `0 ≤ start ≤ end < S` (end optional, defaulting to
`S - 1`), `streamVideoFile` responds 206 with `Content-Range`
`bytes start-end/S` and a body of exactly `end - start + 1` bytes taken from
offsets `start..end`; with no range header it responds 200 with
`Content-Length S` and the entire file. -/
theorem c2_range_serving (content : List Nat) (start : Nat) (endo : Option Nat)
    (h1 : start ≤ jsRangeEnd endo content.length)
    (h2 : jsRangeEnd endo content.length < content.length) :
    (streamVideoFile (some content) (some (start, endo)) =
      .ok 206
        (some ("bytes " ++ toString start ++ "-" ++ toString (jsRangeEnd endo content.length)
          ++ "/" ++ toString content.length))
        (jsRangeEnd endo content.length - start + 1)
        ((content.drop start).take (jsRangeEnd endo content.length - start + 1)))
    ∧ ((content.drop start).take (jsRangeEnd endo content.length - start + 1)).length =
        jsRangeEnd endo content.length - start + 1
    ∧ (∀ i, i < jsRangeEnd endo content.length - start + 1 →
        ((content.drop start).take (jsRangeEnd endo content.length - start + 1))[i]? =
          content[start + i]?)
    ∧ streamVideoFile (some content) none = .ok 200 none content.length content := by
  refine ⟨rfl, ?_, ?_, rfl⟩
  · rw [List.length_take, List.length_drop]
    omega
  · intro i hi
    rw [List.getElem?_take_of_lt hi, List.getElem?_drop]

/-- Witness for C2 at the spec's example: `bytes=100-199` on a 1000-byte file
yields a 100-byte body. -/
theorem c2_range_serving_witness :
    (100 ≤ jsRangeEnd (some 199) (List.range 1000).length)
    ∧ (jsRangeEnd (some 199) (List.range 1000).length < (List.range 1000).length)
    ∧ (((List.range 1000).drop 100).take
          (jsRangeEnd (some 199) (List.range 1000).length - 100 + 1)).length =
        jsRangeEnd (some 199) (List.range 1000).length - 100 + 1 :=
  ⟨by rw [List.length_range]; decide, by rw [List.length_range]; decide,
    (c2_range_serving (List.range 1000) 100 (some 199)
      (by rw [List.length_range]; decide) (by rw [List.length_range]; decide)).2.1⟩

/-- C9 counterexample: `streamVideoFile` on a missing file responds 500 (the
generic stream-error response), not a 404/NotFound status. -/
theorem c9_counterexample :
    (streamVideoFile none none).status = 500
    ∧ (streamVideoFile none none).status ≠ 404 := by
  exact ⟨rfl, by decide⟩

/-- C9 amended: for every request whose file at `localPath` does not exist,
`streamVideoFile` throws `Error('Video file not found')` internally, but its
catch-all turns this into the generic HTTP 500 response with body
"Failed to stream video" — not a NotFound/404 response. -/
theorem c9_missing_file_is_500 (range : Option (Nat × Option Nat)) :
    streamVideoFile none range = .error 500 "Failed to stream video" := rfl

/-! ## Read path (C5, C8) -/

/-- If the first document with a `contentId` is active, it is also the first
active document with that `contentId`. -/
theorem findOneActive_of_findOne {c : Catalog} {cid : String} {r : CatalogEntry}
    (h : findOne c cid = some r) (ha : r.isActive = true) :
    findOneActive c cid = some r := by
  induction c with
  | nil => exact Option.noConfusion h
  | cons x xs ih =>
    unfold findOne at h
    unfold findOneActive at ih ⊢
    by_cases hx : x.contentId = cid
    · rw [List.find?_cons_of_pos _ (by simp [hx])] at h
      injection h with h
      subst h
      rw [List.find?_cons_of_pos _ (by simp [hx, ha])]
    · rw [List.find?_cons_of_neg _ (by simp [hx])] at h
      rw [List.find?_cons_of_neg _ (by simp [hx])]
      exact ih h

/-- C5 counterexample: the self-heal on a missing file (in both `getVideoInfo`
and the pre-lock check of `downloadAndStore`) marks the entry inactive but
does NOT clear `localPath` to null — the stale path remains stored. -/
theorem c5_counterexample :
    ((getVideoInfo stC5 "movie_9" 0 false).1 = none)
    ∧ ((findOne (getVideoInfo stC5 "movie_9" 0 false).2.catalog "movie_9").map
        (fun e => e.isActive) = some false)
    ∧ ((findOne (getVideoInfo stC5 "movie_9" 0 false).2.catalog "movie_9").map
        (fun e => e.localPath) = some (some "t/movie_9.mp4"))
    ∧ ((findOne (getVideoInfo stC5 "movie_9" 0 false).2.catalog "movie_9").map
        (fun e => e.localPath) ≠ some none)
    ∧ ((dlInitialCheck { store := stC5, locks := [] } "movie_9").1 = none)
    ∧ ((findOne (dlInitialCheck { store := stC5, locks := [] } "movie_9").2.store.catalog
        "movie_9").map (fun e => e.localPath) = some (some "t/movie_9.mp4")) := by
  decide

/-- C5 amended: when a read-path operation (`getVideoInfo`, or the pre-lock
check of `downloadAndStore`) observes an active catalog entry whose file does
not exist, it sets `isActive` to false — leaving `localPath` unchanged, not
cleared — and proceeds as a cache miss (returns null / falls through to
re-acquisition). -/
theorem c5_self_heal (st : StoreState) (cid : String) (now : Nat)
    (bumpSaveFails : Bool) (r : CatalogEntry)
    (hfo : findOne st.catalog cid = some r) (hact : r.isActive = true)
    (hm : optExists st.fs r.localPath = false) :
    (getVideoInfo st cid now bumpSaveFails =
      (none, { st with catalog := saveEntry st.catalog { r with isActive := false } }))
    ∧ (∀ x ∈ saveEntry st.catalog { r with isActive := false },
        x.contentId = r.contentId → x.isActive = false ∧ x.localPath = r.localPath)
    ∧ (∀ locks : List String,
        dlInitialCheck { store := st, locks := locks } cid =
          (none,
            { store :=
                { st with catalog := saveEntry st.catalog { r with isActive := false } },
              locks := locks })) := by
  have hfa := findOneActive_of_findOne hfo hact
  refine ⟨?_, ?_, ?_⟩
  · simp [getVideoInfo, hfa, hm]
  · intro x hx hcid
    unfold saveEntry at hx
    obtain ⟨y, hy, hxy⟩ := List.mem_map.mp hx
    dsimp only at hxy
    by_cases hyc : y.contentId = r.contentId
    · rw [if_pos hyc] at hxy
      rw [← hxy]
      exact ⟨rfl, rfl⟩
    · rw [if_neg hyc] at hxy
      rw [← hxy] at hcid
      exact absurd hcid hyc
  · intro locks
    simp [dlInitialCheck, hfo, hact, hm]

/-- Witness for C5 at the concrete ghost-entry store. -/
theorem c5_self_heal_witness :
    (findOne stC5.catalog "movie_9" = some e5C)
    ∧ (e5C.isActive = true)
    ∧ (optExists stC5.fs e5C.localPath = false)
    ∧ (getVideoInfo stC5 "movie_9" 0 false).1 = none :=
  ⟨by decide, by decide, by decide, by
    rw [(c5_self_heal stC5 "movie_9" 0 false e5C (by decide) (by decide) (by decide)).1]⟩

/-- C8 counterexample: when persisting the access-stat bump fails, the read
does NOT return the entry's path — `getVideoInfo` returns null and the hit
becomes a miss (second conjunct shows the same state is a genuine hit when
the save succeeds). -/
theorem c8_counterexample :
    ((getVideoInfo stC8 "movie_7" 7 true).1 = none)
    ∧ ((getVideoInfo stC8 "movie_7" 7 false).1 = some "t/movie_7.mp4") := by
  decide

/-- C8 amended: the access bump is attempted inside `getVideoInfo`'s
`try`/`catch`; when persisting it fails, the error is swallowed (no exception
reaches the caller) and the persisted state is unchanged, but the call
returns null — the read path survives, yet the hit is reported as a miss
instead of returning the entry's path. -/
theorem c8_bump_failure_swallowed (st : StoreState) (cid : String) (now : Nat)
    (r : CatalogEntry) (hr : findOneActive st.catalog cid = some r)
    (hm : optExists st.fs r.localPath = true) :
    getVideoInfo st cid now true = (none, st) := by
  simp [getVideoInfo, hr, hm]

/-- Witness for C8 at the concrete hit store. -/
theorem c8_bump_failure_swallowed_witness :
    (findOneActive stC8.catalog "movie_7" = some e8C)
    ∧ (optExists stC8.fs e8C.localPath = true)
    ∧ getVideoInfo stC8 "movie_7" 7 true = (none, stC8) :=
  ⟨by decide, by decide,
    c8_bump_failure_swallowed stC8 "movie_7" 7 e8C (by decide) (by decide)⟩

/-! ## Commit failure (C6, C10) -/

/-- A freshly written file exists. -/
theorem fsExists_fsWrite (fs : Fs) (p : String) (c : List Nat) :
    fsExists (fsWrite fs p c) p = true := by
  simp [fsExists, fsWrite]

/-- An unlinked file no longer exists. -/
theorem fsExists_fsUnlink (fs : Fs) (p : String) :
    fsExists (fsUnlink fs p) p = false := by
  unfold fsExists fsUnlink
  rw [List.any_eq_false]
  intro x hx
  have hmem := List.mem_filter.mp hx
  simp at hmem ⊢
  exact hmem.2

/-- Shared description of `saveVideo` when the catalog write fails after the
copy: the error is rethrown, the catalog transaction is rolled back (no
catalog change persists), and the file at the final path is deleted. -/
theorem saveVideo_commitFail_spec (trailerPath : String) (maxGB maxVideos : Nat)
    (st : StoreState) (cid temp title : String) (prio : Option Nat) (now : Nat)
    (htemp : fsExists st.fs temp = true) :
    (saveVideo trailerPath maxGB maxVideos st cid temp title prio now true).1 =
      .err "catalog write failed"
    ∧ (saveVideo trailerPath maxGB maxVideos st cid temp title prio now true).2.catalog =
      st.catalog
    ∧ fsExists (saveVideo trailerPath maxGB maxVideos st cid temp title prio now true).2.fs
      (getVideoPath trailerPath cid) = false := by
  refine ⟨?_, ?_, ?_⟩ <;>
    simp [saveVideo, htemp, fsExists_fsWrite, fsExists_fsUnlink]

/-- C6: if the catalog write inside `saveVideo` fails after the temp file has
been copied to the final path, the transaction is aborted so no catalog field
change persists, the copied file at the final path is removed, the failure
surfaces as a hard error, and no active catalog row references a still-existing
file created by this commit. -/
theorem c6_commit_failure_rollback (trailerPath : String) (maxGB maxVideos : Nat)
    (st : StoreState) (cid temp title : String) (prio : Option Nat) (now : Nat)
    (htemp : fsExists st.fs temp = true) :
    (saveVideo trailerPath maxGB maxVideos st cid temp title prio now true).1 =
      .err "catalog write failed"
    ∧ (saveVideo trailerPath maxGB maxVideos st cid temp title prio now true).2.catalog =
      st.catalog
    ∧ fsExists (saveVideo trailerPath maxGB maxVideos st cid temp title prio now true).2.fs
      (getVideoPath trailerPath cid) = false
    ∧ (∀ x ∈ (saveVideo trailerPath maxGB maxVideos st cid temp title prio now true).2.catalog,
        x.isActive = true → x.localPath = some (getVideoPath trailerPath cid) →
        fsExists (saveVideo trailerPath maxGB maxVideos st cid temp title prio now true).2.fs
          (getVideoPath trailerPath cid) = false) := by
  obtain ⟨h1, h2, h3⟩ :=
    saveVideo_commitFail_spec trailerPath maxGB maxVideos st cid temp title prio now htemp
  exact ⟨h1, h2, h3, fun x _ _ _ => h3⟩

/-- Witness for C6 at the concrete empty-catalog store with one temp file. -/
theorem c6_commit_failure_rollback_witness :
    (fsExists stC6.fs "temp-downloads/x.mp4" = true)
    ∧ (saveVideo "t" 1000 500 stC6 "movie_4" "temp-downloads/x.mp4" "T" none 0 true).2.catalog
        = stC6.catalog
    ∧ fsExists (saveVideo "t" 1000 500 stC6 "movie_4" "temp-downloads/x.mp4" "T" none 0
        true).2.fs (getVideoPath "t" "movie_4") = false :=
  ⟨by decide,
    (c6_commit_failure_rollback "t" 1000 500 stC6 "movie_4" "temp-downloads/x.mp4" "T"
      none 0 (by decide)).2.1,
    (c6_commit_failure_rollback "t" 1000 500 stC6 "movie_4" "temp-downloads/x.mp4" "T"
      none 0 (by decide)).2.2.1⟩

/-- C10: if `saveVideo` fails after the copy for a `contentId` that already
had a committed active entry at the final path, the error path deletes the
file at the final path unconditionally, while the rolled-back catalog still
holds that entry — active and still referencing the now-deleted path. -/
theorem c10_reacquisition_commit_failure (trailerPath : String) (maxGB maxVideos : Nat)
    (st : StoreState) (cid temp title : String) (prio : Option Nat) (now : Nat)
    (htemp : fsExists st.fs temp = true) (r : CatalogEntry)
    (hr : findOne st.catalog cid = some r) (hact : r.isActive = true)
    (hpath : r.localPath = some (getVideoPath trailerPath cid)) :
    findOne (saveVideo trailerPath maxGB maxVideos st cid temp title prio now
        true).2.catalog cid = some r
    ∧ r.isActive = true
    ∧ r.localPath = some (getVideoPath trailerPath cid)
    ∧ fsExists (saveVideo trailerPath maxGB maxVideos st cid temp title prio now true).2.fs
        (getVideoPath trailerPath cid) = false := by
  obtain ⟨h1, h2, h3⟩ :=
    saveVideo_commitFail_spec trailerPath maxGB maxVideos st cid temp title prio now htemp
  rw [h2]
  exact ⟨hr, hact, hpath, h3⟩

/-- Witness for C10 at the concrete committed-entry store. -/
theorem c10_reacquisition_commit_failure_witness :
    (fsExists stC10.fs "temp-downloads/y.mp4" = true)
    ∧ (findOne stC10.catalog "movie_5" = some e10C)
    ∧ (findOne (saveVideo "t" 1000 500 stC10 "movie_5" "temp-downloads/y.mp4" "T" none 0
        true).2.catalog "movie_5" = some e10C)
    ∧ fsExists (saveVideo "t" 1000 500 stC10 "movie_5" "temp-downloads/y.mp4" "T" none 0
        true).2.fs (getVideoPath "t" "movie_5") = false :=
  ⟨by decide, by decide,
    (c10_reacquisition_commit_failure "t" 1000 500 stC10 "movie_5" "temp-downloads/y.mp4"
      "T" none 0 (by decide) e10C (by decide) (by decide) (by decide)).1,
    (c10_reacquisition_commit_failure "t" 1000 500 stC10 "movie_5" "temp-downloads/y.mp4"
      "T" none 0 (by decide) e10C (by decide) (by decide) (by decide)).2.2.2⟩

/-! ## Lock release (C7) -/

/-- After `releaseLock` the lock table does not contain the id. -/
theorem releaseLock_not_contains (locks : List String) (cid : String) :
    (releaseLock locks cid).contains cid = false := by
  rw [Bool.eq_false_iff]
  intro h
  have hmem : cid ∈ releaseLock locks cid := by
    simpa using h
  unfold releaseLock at hmem
  have h2 := (List.mem_filter.mp hmem).2
  simp at h2

/-- C7: every `downloadAndStore` invocation that acquires the lock for a
`contentId` has released it by completion — on the normal return, on the
double-check early return, on fetch failure, and on commit failure alike —
so the final lock table does not contain that id. -/
theorem c7_lock_always_released (trailerPath : String) (maxGB maxVideos : Nat)
    (st : DlState) (contentId title : String) (prio : Option Nat) (tempPath : String)
    (tempContent : List Nat) (now : Nat) (fetchOk catalogWriteFails : Bool)
    (hacq : (downloadAndStore trailerPath maxGB maxVideos st contentId title prio tempPath
      tempContent now fetchOk catalogWriteFails).2.2 = true) :
    ((downloadAndStore trailerPath maxGB maxVideos st contentId title prio tempPath
      tempContent now fetchOk catalogWriteFails).2.1).locks.contains contentId = false := by
  revert hacq
  simp only [downloadAndStore]
  split
  · intro hacq
    exact Bool.noConfusion hacq
  · split
    · intro hacq
      exact Bool.noConfusion hacq
    · intro _
      exact releaseLock_not_contains _ _

/-- Witness for C7: a run from the empty state acquires the lock (here the
fetch fails, exercising the error path) and ends with the lock released. -/
theorem c7_lock_always_released_witness :
    ((downloadAndStore "t" 1000 500 dlC7 "movie_8" "T" none "temp-downloads/z.mp4" [1]
        0 false false).2.2 = true)
    ∧ ((downloadAndStore "t" 1000 500 dlC7 "movie_8" "T" none "temp-downloads/z.mp4" [1]
        0 false false).2.1).locks.contains "movie_8" = false :=
  ⟨by decide,
    c7_lock_always_released "t" 1000 500 dlC7 "movie_8" "T" none "temp-downloads/z.mp4"
      [1] 0 false false (by decide)⟩

/-! ## Eviction (C3, C4) -/

instance : IsTotal CatalogEntry evictLE :=
  ⟨by intro a b; unfold evictLE; omega⟩

instance : IsTrans CatalogEntry evictLE :=
  ⟨by intro a b c hab hbc; unfold evictLE at hab hbc ⊢; omega⟩

/-- C3 counterexample: at the claim's own example (priorities `[1,1,2]`,
`lastAccessed` ages `[old,new,old]`) the cleanup query returns only the two
priority-1 entries — not the spec's `listEvictionCandidates` ordering over all
active entries — so it does not implement the claimed contract. -/
theorem c3_counterexample :
    cleanupCandidates stC3.catalog ≠ listEvictionCandidatesSpec stC3.catalog 10
    ∧ cleanupCandidates stC3.catalog = [e1C, e2C]
    ∧ listEvictionCandidatesSpec stC3.catalog 10 = [e1C, e2C, e3C]
    ∧ e3C ∉ cleanupCandidates stC3.catalog := by
  decide

/-- C3 amended: the cleanup query selects only ACTIVE, PRIORITY-1 entries
(priority ≥ 2 entries are never candidates), sorted by `lastAccessed`
ascending then `accessCount` ascending (ties keep catalog order; `contentId`
is not consulted), limited to 10; in the claim's `[1,1,2]`/`[old,new,old]`
example the priority-1 oldest entry heads the batch (evicted first) and the
priority-2 entry is untouched by the run. -/
theorem c3_eviction_order :
    (∀ c : Catalog,
      (∀ e ∈ cleanupCandidates c, e.isActive = true ∧ e.priority = 1)
      ∧ (cleanupCandidates c).Sorted evictLE
      ∧ (cleanupCandidates c).length ≤ 10)
    ∧ (cleanupCandidates stC3.catalog = [e1C, e2C]
      ∧ (findOne (cleanup stC3).2.catalog "movie_1").map (fun e => e.isActive) = some false
      ∧ (findOne (cleanup stC3).2.catalog "movie_3") = some e3C
      ∧ fsExists (cleanup stC3).2.fs "t/movie_3.mp4" = true
      ∧ fsExists (cleanup stC3).2.fs "t/movie_1.mp4" = false) := by
  constructor
  · intro c
    refine ⟨?_, ?_, ?_⟩
    · intro e he
      have h1 := List.mem_of_mem_take he
      rw [List.mem_insertionSort] at h1
      have h2 := (List.mem_filter.mp h1).2
      simp only [Bool.and_eq_true, beq_iff_eq] at h2
      exact h2
    · exact (List.sorted_insertionSort evictLE _).sublist (List.take_sublist _ _)
    · unfold cleanupCandidates
      rw [List.length_take]
      exact Nat.min_le_left _ _
  · exact ⟨by decide, by decide, by decide, by decide, by decide⟩

/-- Witness for C3 applying the universal part at the concrete catalog. -/
theorem c3_eviction_order_witness :
    (e1C ∈ cleanupCandidates stC3.catalog) ∧ (e1C.isActive = true ∧ e1C.priority = 1) :=
  ⟨by decide, (c3_eviction_order.1 stC3.catalog).1 e1C (by decide)⟩

/-- C4 counterexample: with `"movie_1"` held in the lock table, a cleanup run
still deletes that entry's file and marks the entry inactive — the eviction
code never consults the Coordinator's lock table. -/
theorem c4_counterexample :
    "movie_1" ∈ ["movie_1"]
    ∧ fsExists (cleanup stC3).2.fs "t/movie_1.mp4" = false
    ∧ (findOne (cleanup stC3).2.catalog "movie_1").map (fun e => e.isActive) = some false := by
  refine ⟨by decide, by decide, by decide⟩

/-- All entries carrying `cid` are dead (inactive with null path). -/
def DeadFor (cid : String) (st : StoreState) : Prop :=
  ∀ x ∈ st.catalog, x.contentId = cid → x.isActive = false ∧ x.localPath = none

/-- The cleanup loop body leaves every entry either untouched or dead. -/
theorem cleanupDeleteOne_mem {st : StoreState} {v : CatalogEntry} {x : CatalogEntry}
    (hx : x ∈ (cleanupDeleteOne st v).catalog) :
    x = { v with isActive := false, localPath := none } ∨ x ∈ st.catalog := by
  obtain ⟨y, hy, hxy⟩ := List.mem_map.mp hx
  dsimp only at hxy
  by_cases hyc : y.contentId = v.contentId
  · rw [if_pos hyc] at hxy
    exact Or.inl hxy.symm
  · rw [if_neg hyc] at hxy
    exact Or.inr (hxy ▸ hy)

/-- The cleanup loop body kills its candidate's id. -/
theorem cleanupDeleteOne_dead (st : StoreState) (v : CatalogEntry) :
    DeadFor v.contentId (cleanupDeleteOne st v) := by
  intro x hx hcid
  unfold cleanupDeleteOne at hx
  dsimp only at hx
  obtain ⟨y, hy, hxy⟩ := List.mem_map.mp hx
  dsimp only at hxy
  by_cases hyc : y.contentId = v.contentId
  · rw [if_pos hyc] at hxy
    rw [← hxy]
    exact ⟨rfl, rfl⟩
  · rw [if_neg hyc] at hxy
    rw [← hxy] at hcid
    exact absurd hcid hyc

/-- The cleanup loop body preserves deadness of any id. -/
theorem cleanupDeleteOne_preserves {cid : String} {st : StoreState} (v : CatalogEntry)
    (h : DeadFor cid st) : DeadFor cid (cleanupDeleteOne st v) := by
  intro x hx hcid
  rcases cleanupDeleteOne_mem hx with hdead | hold
  · rw [hdead]
    exact ⟨rfl, rfl⟩
  · exact h x hold hcid

/-- Folding the cleanup loop preserves deadness. -/
theorem foldl_cleanup_preserves {cid : String} (l : List CatalogEntry) (st : StoreState)
    (h : DeadFor cid st) : DeadFor cid (l.foldl cleanupDeleteOne st) := by
  induction l generalizing st with
  | nil => exact h
  | cons w l' ih => exact ih _ (cleanupDeleteOne_preserves w h)

/-- After the cleanup loop, every processed candidate's id is dead. -/
theorem foldl_cleanup_dead (l : List CatalogEntry) (st : StoreState) (v : CatalogEntry)
    (hv : v ∈ l) : DeadFor v.contentId (l.foldl cleanupDeleteOne st) := by
  induction l generalizing st with
  | nil => exact absurd hv (List.not_mem_nil v)
  | cons w l' ih =>
    rcases List.mem_cons.mp hv with rfl | hv'
    · exact foldl_cleanup_preserves l' _ (cleanupDeleteOne_dead st v)
    · exact ih _ hv'

/-- The cleanup loop body never creates files. -/
theorem cleanupDeleteOne_fs_mono {st : StoreState} {v : CatalogEntry} {p : String}
    (h : fsExists (cleanupDeleteOne st v).fs p = true) : fsExists st.fs p = true := by
  unfold cleanupDeleteOne at h
  dsimp only at h
  rcases hv : v.localPath with _ | q <;> simp only [hv] at h
  · exact h
  · by_cases hq : fsExists st.fs q = true
    · rw [if_pos hq] at h
      unfold fsExists at h ⊢
      rw [List.any_eq_true] at h ⊢
      obtain ⟨x, hx, hxp⟩ := h
      exact ⟨x, (List.mem_filter.mp hx).1, hxp⟩
    · rw [if_neg hq] at h
      exact h

/-- The cleanup loop body deletes its candidate's file. -/
theorem cleanupDeleteOne_fs_dead (st : StoreState) (v : CatalogEntry) (p : String)
    (hp : v.localPath = some p) : fsExists (cleanupDeleteOne st v).fs p = false := by
  unfold cleanupDeleteOne
  dsimp only
  simp only [hp]
  by_cases hq : fsExists st.fs p = true
  · rw [if_pos hq]
    exact fsExists_fsUnlink _ _
  · rw [if_neg hq]
    exact Bool.eq_false_iff.mpr (fun h => hq h)

/-- Folding the cleanup loop never creates files. -/
theorem foldl_cleanup_fs_mono (l : List CatalogEntry) (st : StoreState) (p : String)
    (h : fsExists (l.foldl cleanupDeleteOne st).fs p = true) : fsExists st.fs p = true := by
  induction l generalizing st with
  | nil => exact h
  | cons w l' ih => exact cleanupDeleteOne_fs_mono (ih _ h)

/-- After the cleanup loop, every processed candidate's file is gone. -/
theorem foldl_cleanup_fs_dead (l : List CatalogEntry) (st : StoreState) (v : CatalogEntry)
    (p : String) (hv : v ∈ l) (hp : v.localPath = some p) :
    fsExists (l.foldl cleanupDeleteOne st).fs p = false := by
  induction l generalizing st with
  | nil => exact absurd hv (List.not_mem_nil v)
  | cons w l' ih =>
    rcases List.mem_cons.mp hv with rfl | hv'
    · cases hfin : fsExists (l'.foldl cleanupDeleteOne (cleanupDeleteOne st v)).fs p
      · exact hfin
      · have h1 := foldl_cleanup_fs_mono l' _ p hfin
        rw [cleanupDeleteOne_fs_dead st v p hp] at h1
        exact Bool.noConfusion h1
    · exact ih _ hv'

/-- C4 amended: the eviction run takes no lock-table input at all; an id held
in the Coordinator's lock table receives no protection — whenever its entry is
among the cleanup candidates, the run deletes the entry's file and marks the
entry inactive (clearing its path), exactly as for any unlocked id. -/
theorem c4_eviction_ignores_locks (locks : List String) (cid : String)
    (hcid : cid ∈ locks) (st : StoreState) (e : CatalogEntry)
    (he : e ∈ cleanupCandidates st.catalog) (hecid : e.contentId = cid) :
    (∀ x ∈ (cleanup st).2.catalog, x.contentId = cid →
      x.isActive = false ∧ x.localPath = none)
    ∧ (∀ p, e.localPath = some p → fsExists (cleanup st).2.fs p = false) := by
  constructor
  · intro x hx hxcid
    exact foldl_cleanup_dead (cleanupCandidates st.catalog) st e he x hx
      (hxcid.trans hecid.symm)
  · intro p hp
    exact foldl_cleanup_fs_dead (cleanupCandidates st.catalog) st e p he hp

/-- Witness for C4 at the concrete `[1,1,2]` store with `"movie_1"` locked. -/
theorem c4_eviction_ignores_locks_witness :
    ("movie_1" ∈ ["movie_1"])
    ∧ (e1C ∈ cleanupCandidates stC3.catalog)
    ∧ (e1C.contentId = "movie_1")
    ∧ fsExists (cleanup stC3).2.fs "t/movie_1.mp4" = false :=
  ⟨by decide, by decide, by decide,
    (c4_eviction_ignores_locks ["movie_1"] "movie_1" (by decide) stC3 e1C (by decide)
      (by decide)).2 "t/movie_1.mp4" (by decide)⟩

end Velura
